import Mathlib

/-!
# Verification of the café-finder application logic

Shallow embedding of the core logic of `src/app.py` (a Streamlit café
finder): loading and numeric coercion of the café table
(`cargar_cafes`), radius filtering (`cafes_en_radio`), result sorting
(`sort_values("DIST_KM")`, including a faithful model of numpy's
argsort quicksort used by pandas' default sort), block conversion
(`distancia_en_cuadras`), geocoding with a local token-match fallback
(`geocodificar`, `geocodificar_desde_cafes`, `resolver_coordenadas`),
and the vote ledger described in the design document (absent from this
source variant, modelled from the spec).

Floats are modelled as rationals; pandas dataframes as column lists of
string/number/NA cells or as lists of typed records, as each function
needs; Python exceptions as `Except`.
-/

/-- A café record as used by the ranking code: the columns of the
loaded table that `cafes_en_radio`, the recommendation card and the
local geocoding fallback read.  String columns are `Option` because
pandas cells can be NaN; `LAT`/`LONG` are numeric after
`cargar_cafes`' coercion and `dropna`. -/
structure CafeRow where
  cafe : Option String
  ubicacion : Option String
  tostador : Option String
  lat : ℚ
  long : ℚ
deriving DecidableEq, Repr

instance : Inhabited CafeRow := ⟨⟨none, none, none, 0, 0⟩⟩

/-- `cafes_en_radio` (src/app.py:97-103): copy the dataframe, attach a
`DIST_KM` column computed by `geodesic(coords, (LAT, LONG)).km`, and
keep the rows with `DIST_KM <= radio_km`.  The geodesic itself is an
external library (geopy) and is abstracted as a distance-function
parameter `geodist`; rows are returned together with their attached
`DIST_KM` value. -/
def cafes_en_radio (geodist : (ℚ × ℚ) → (ℚ × ℚ) → ℚ) (rows : List CafeRow)
    (coords : ℚ × ℚ) (radio_km : ℚ) : List (CafeRow × ℚ) :=
  (rows.map (fun r => (r, geodist coords (r.lat, r.long)))).filter
    (fun p => decide (p.2 ≤ radio_km))

/-- C1: the radius filter keeps exactly the records whose computed
distance to the reference point is at most `radio_km`; in particular it
never keeps a farther record, and (for a nonnegative distance function,
as the geodesic is) radius `0` keeps only records at distance exactly
`0`. -/
theorem cafes_en_radio_exact (geodist : (ℚ × ℚ) → (ℚ × ℚ) → ℚ)
    (rows : List CafeRow) (coords : ℚ × ℚ) (radio_km : ℚ) :
    (∀ p : CafeRow × ℚ,
      p ∈ cafes_en_radio geodist rows coords radio_km ↔
        (p.1 ∈ rows ∧ p.2 = geodist coords (p.1.lat, p.1.long) ∧ p.2 ≤ radio_km)) ∧
    ((∀ a b, 0 ≤ geodist a b) →
      ∀ p ∈ cafes_en_radio geodist rows coords 0, p.2 = 0) := by
  constructor
  · intro p
    constructor
    · intro hp
      rw [cafes_en_radio, List.mem_filter] at hp
      obtain ⟨hmem, hle⟩ := hp
      rw [List.mem_map] at hmem
      obtain ⟨r, hr, hrp⟩ := hmem
      subst hrp
      exact ⟨hr, rfl, by simpa using hle⟩
    · rintro ⟨h1, h2, h3⟩
      rw [cafes_en_radio, List.mem_filter]
      refine ⟨List.mem_map.mpr ⟨p.1, h1, ?_⟩, by simpa using h3⟩
      rw [← h2]
  · intro hnn p hp
    rw [cafes_en_radio, List.mem_filter] at hp
    obtain ⟨hmem, hle⟩ := hp
    rw [List.mem_map] at hmem
    obtain ⟨r, hr, hrp⟩ := hmem
    have h0 : p.2 ≤ 0 := by simpa using hle
    have h1 : 0 ≤ p.2 := by
      subst hrp
      exact hnn _ _
    exact le_antisymm h0 h1

/-- Computable absolute value on ℚ, for concrete witnesses. -/
def rabs (q : ℚ) : ℚ := if q < 0 then -q else q

theorem rabs_nonneg (q : ℚ) : 0 ≤ rabs q := by
  rw [rabs]
  split
  · linarith
  · linarith

/-- A concrete distance function for witnesses: taxicab distance, which
is nonnegative like the geodesic. -/
def taxiDist (a b : ℚ × ℚ) : ℚ := rabs (a.1 - b.1) + rabs (a.2 - b.2)

/-- A concrete café row at the origin, for witnesses. -/
def rowAtOrigin : CafeRow := ⟨some "Cafe Cero", some "Origen 0", none, 0, 0⟩

/-- Witness for C1: with radius `0` and a café at the reference point,
the café is kept and its distance is exactly `0`. -/
theorem cafes_en_radio_exact_witness :
    ((⟨rowAtOrigin, (0 : ℚ)⟩ : CafeRow × ℚ) ∈
        cafes_en_radio taxiDist [rowAtOrigin] (0, 0) 0) ∧
    ((⟨rowAtOrigin, (0 : ℚ)⟩ : CafeRow × ℚ).2 = 0) := by
  have h := cafes_en_radio_exact taxiDist [rowAtOrigin] (0, 0) 0
  have hmem : (⟨rowAtOrigin, (0 : ℚ)⟩ : CafeRow × ℚ) ∈
      cafes_en_radio taxiDist [rowAtOrigin] (0, 0) 0 := by
    apply (h.1 ⟨rowAtOrigin, 0⟩).mpr
    refine ⟨by simp, by norm_num [taxiDist, rabs, rowAtOrigin], le_refl 0⟩
  refine ⟨hmem, ?_⟩
  exact h.2 (fun a b => add_nonneg (rabs_nonneg _) (rabs_nonneg _)) _ hmem

/-! ## C10: `cafes_en_radio` leaves its input dataframe unchanged

To make the frame claim meaningful we model pandas object identity
explicitly: a heap of dataframe values addressed by references.
`cafes_df.copy()` (src/app.py:98) allocates a fresh cell; the
`DIST_KM` column assignment (src/app.py:99-102) mutates only that
fresh cell; the filtered result (src/app.py:103) is a new value. -/

/-- A dataframe value as seen by `cafes_en_radio`: café rows with an
optional attached `DIST_KM` column. -/
abbrev DFVal := List (CafeRow × Option ℚ)

/-- The heap of dataframe objects; a reference is an index. -/
abbrev DFHeap := List DFVal

/-- `df.copy()`: allocate a fresh cell holding the same value and hand
back its reference. -/
def heapCopy (h : DFHeap) (r : ℕ) : DFHeap × ℕ := (h ++ [h.getD r []], h.length)

/-- `df["DIST_KM"] = df.apply(lambda r: geodesic(coords, (r.LAT, r.LONG)).km, axis=1)`:
in-place mutation of the dataframe behind reference `r`. -/
def heapSetDist (h : DFHeap) (r : ℕ) (geodist : (ℚ × ℚ) → (ℚ × ℚ) → ℚ)
    (coords : ℚ × ℚ) : DFHeap :=
  h.set r ((h.getD r []).map (fun p => (p.1, some (geodist coords (p.1.lat, p.1.long)))))

/-- `cafes_en_radio` with explicit object identity (src/app.py:97-103):
copy the input dataframe, attach `DIST_KM` to the copy, return the
filtered copy as a fresh value, together with the final heap. -/
def cafes_en_radio_heap (h : DFHeap) (src : ℕ) (geodist : (ℚ × ℚ) → (ℚ × ℚ) → ℚ)
    (coords : ℚ × ℚ) (radio_km : ℚ) : DFHeap × DFVal :=
  let hc := heapCopy h src
  let h2 := heapSetDist hc.1 hc.2 geodist coords
  (h2, (h2.getD hc.2 []).filter (fun p => decide (p.2.getD 0 ≤ radio_km)))

/-- C10: after `cafes_en_radio`, every dataframe that existed before the
call — in particular the caller's café table `cafes_df` — is unchanged:
the `DIST_KM` column is added only to the internal copy. -/
theorem cafes_en_radio_heap_frame (h : DFHeap) (src : ℕ)
    (geodist : (ℚ × ℚ) → (ℚ × ℚ) → ℚ) (coords : ℚ × ℚ) (radio_km : ℚ) :
    ∀ i, i < h.length →
      (cafes_en_radio_heap h src geodist coords radio_km).1.getD i [] = h.getD i [] := by
  intro i hi
  show (heapSetDist (h ++ [h.getD src []]) h.length geodist coords).getD i [] = h.getD i []
  rw [heapSetDist]
  have hne : h.length ≠ i := by omega
  have hset : ∀ (l : DFHeap) (v : DFVal), (l.set h.length v).getD i [] = l.getD i [] := by
    intro l v
    simp only [List.getD_eq_getElem?_getD]
    rw [List.getElem?_set_ne hne]
  rw [hset]
  simp only [List.getD_eq_getElem?_getD]
  rw [List.getElem?_append_left hi]

/-- Witness for C10: a one-dataframe heap; the caller's table is intact
after the call. -/
theorem cafes_en_radio_heap_frame_witness :
    (cafes_en_radio_heap [[(rowAtOrigin, none)]] 0 taxiDist (0, 0) 2).1.getD 0 [] =
      [(rowAtOrigin, none)] := by
  exact cafes_en_radio_heap_frame [[(rowAtOrigin, none)]] 0 taxiDist (0, 0) 2 0 (by decide)

/-! ## C4: blocks conversion `distancia_en_cuadras` -/

/-- `distancia_en_cuadras` (src/app.py:122-125): meters = km * 1000;
blocks = `int((metros + 99) // 100)` (Python float floor-division, then
truncation of the already-integral value, i.e. the floor); at least 1. -/
def distancia_en_cuadras (dist_km : ℚ) : ℤ :=
  let metros := dist_km * 1000
  let cuadras := ⌊(metros + 99) / 100⌋
  max cuadras 1

/-- Counterexample to C4 as stated: the displayed blocks figure is not
`distance_km * 1000 / 87`.  At 0.87 km the claimed formula gives 10
blocks, the code gives 9. -/
theorem distancia_en_cuadras_not_87 :
    ((distancia_en_cuadras (87 / 100) : ℚ) ≠ (87 / 100) * 1000 / 87) := by
  have hfl : (((87 : ℚ) / 100 * 1000 + 99) / 100) = ((969 : ℤ) : ℚ) / ((100 : ℕ) : ℚ) := by
    push_cast
    ring
  have hl : distancia_en_cuadras (87 / 100) = 9 := by
    rw [distancia_en_cuadras]
    show max ⌊((87 : ℚ) / 100 * 1000 + 99) / 100⌋ 1 = 9
    rw [hfl, Rat.floor_intCast_div_natCast]
    decide
  rw [hl]
  norm_num

/-- C4 (amended): the blocks figure is `max 1 ⌈meters / 100⌉` — one
block per 100 m, rounded up, with a floor of one block — computed from
the full-precision distance (for a distance of `m` whole meters); the
rounding is applied only to this displayed figure, never to the
`DIST_KM` value used for filtering and sorting. -/
theorem distancia_en_cuadras_ceil_100 (m : ℕ) :
    distancia_en_cuadras ((m : ℚ) / 1000) = max ⌈(m : ℚ) / 100⌉ 1 := by
  rw [distancia_en_cuadras]
  have h1 : ((m : ℚ) / 1000 * 1000 + 99) / 100 = ((m + 99 : ℤ) : ℚ) / ((100 : ℕ) : ℚ) := by
    push_cast
    ring
  rw [h1, Rat.floor_intCast_div_natCast]
  have h2 : ⌈(m : ℚ) / 100⌉ = -⌊-((m : ℚ) / 100)⌋ := by
    rw [Int.floor_neg]
    ring
  have h3 : -((m : ℚ) / 100) = ((-(m : ℤ) : ℤ) : ℚ) / ((100 : ℕ) : ℚ) := by
    push_cast
    ring
  rw [h2, h3, Rat.floor_intCast_div_natCast]
  omega

/-- Witness for C4 (amended) at 870 m: 9 blocks. -/
theorem distancia_en_cuadras_ceil_100_witness :
    distancia_en_cuadras ((870 : ℚ) / 1000) = max ⌈(870 : ℚ) / 100⌉ 1 := by
  have h := distancia_en_cuadras_ceil_100 870
  norm_num at h ⊢
  exact h

/-! ## C3: numeric normalization of LAT/LONG

`cargar_cafes` (src/app.py:52-59) runs
`pd.to_numeric(col.str.replace(",", ".", regex=False), errors="coerce")`
on the latitude and longitude columns: every comma is replaced by a
dot, then the string is coerced to a float, unparseable values becoming
NaN. -/

/-- `str.replace(",", ".", regex=False)` for the one-character pattern:
replace every comma by a dot. -/
def replaceCommaDot (t : String) : String :=
  ⟨t.data.map (fun c => if c = ',' then '.' else c)⟩

/-- Python/pandas whitespace, as stripped around numbers and by
`str.strip()`. -/
def isPySpace (c : Char) : Bool :=
  c == ' ' || c == '\t' || c == '\n' || c == '\r' || c == '\x0b' || c == '\x0c'

/-- Python `str.strip()` at the character-list level. -/
def pyStrip (l : List Char) : List Char :=
  ((l.dropWhile isPySpace).reverse.dropWhile isPySpace).reverse

/-- The float-literal parser behind `pd.to_numeric(..., errors="coerce")`,
restricted to the plain decimal forms that coordinate data uses: optional
surrounding whitespace, optional sign, digits with at most one dot (and
at least one digit).  Exponent, inf/nan and underscore forms of the
full parser are not modelled; every input in the theorems below is a
plain decimal.  Returns `none` where pandas would produce NaN. -/
def numParse (t : String) : Option ℚ :=
  let l := pyStrip t.data
  let sign : ℤ := if l.head? == some '-' then -1 else 1
  let l := if l.head? == some '-' || l.head? == some '+' then l.tail else l
  let ip := l.takeWhile (fun c => c != '.')
  let rest := l.drop ip.length
  let digitsVal : List Char → ℕ := fun ds => ds.foldl (fun acc c => acc * 10 + (c.toNat - 48)) 0
  match rest with
  | [] =>
    if ip.all Char.isDigit && !ip.isEmpty then
      some (mkRat (sign * digitsVal ip) 1)
    else none
  | _ :: fp =>
    if (ip ++ fp).all Char.isDigit && !(ip.isEmpty && fp.isEmpty) && !fp.contains '.' then
      some (mkRat (sign * (digitsVal ip * 10 ^ fp.length + digitsVal fp)) (10 ^ fp.length))
    else none

/-- The numeric normalization `cargar_cafes` applies to a LAT/LONG cell
(src/app.py:52-59): comma-to-dot replacement followed by coercion;
`none` is the NaN outcome. -/
def normalizar_numero (t : String) : Option ℚ :=
  numParse (replaceCommaDot t)

/-- Counterexample to C3 as stated: a thousands-dot + decimal-comma
value is NOT mapped to `1234.567`; the comma also becomes a dot, the
two-dot string fails numeric coercion, and the cell becomes NaN. -/
theorem normalizar_numero_thousands_nan :
    normalizar_numero "1.234,567" = none ∧
      normalizar_numero "1.234,567" ≠ some ((1234567 : ℚ) / 1000) := by
  have hnone : normalizar_numero "1.234,567" = none := by rfl
  refine ⟨hnone, ?_⟩
  intro h
  rw [hnone] at h
  exact Option.noConfusion h

/-- C3 (amended): the normalization replaces every comma with a dot and
then coerces.  A value with one comma and no dot parses as a
decimal-comma number (`"-38,0056"` → `-38.0056`); a comma-free value is
passed through unchanged to the coercion (`"5.5"` → `5.5`); but a
thousands-dot + decimal-comma value such as `"1.234,567"` becomes the
two-dot string `"1.234.567"`, fails coercion, and is NaN (so the record
is later dropped), instead of `1234.567`. -/
theorem normalizar_numero_comma_rule :
    (∀ t : String, ',' ∉ t.data → replaceCommaDot t = t) ∧
    normalizar_numero "-38,0056" = some (-((380056 : ℚ) / 10000)) ∧
    normalizar_numero "5.5" = some ((55 : ℚ) / 10) ∧
    replaceCommaDot "1.234,567" = "1.234.567" ∧
    normalizar_numero "1.234,567" = none := by
  have h1 : normalizar_numero "-38,0056" = some (mkRat (-380056) 10000) := by rfl
  have h2 : normalizar_numero "5.5" = some (mkRat 55 10) := by rfl
  refine ⟨?_, ?_, ?_, by decide, by rfl⟩
  case refine_2 =>
    rw [h1]
    congr 1
    rw [Rat.mkRat_eq_div]
    push_cast
    norm_num
  case refine_3 =>
    rw [h2]
    congr 1
    rw [Rat.mkRat_eq_div]
    push_cast
    norm_num
  intro t hnc
  rw [replaceCommaDot]
  have hmap : t.data.map (fun c => if c = ',' then '.' else c) = t.data := by
    have h1 : t.data.map (fun c => if c = ',' then '.' else c) = t.data.map id := by
      apply List.map_congr_left
      intro c hc
      have : c ≠ ',' := fun hceq => hnc (hceq ▸ hc)
      simp [this]
    rw [h1, List.map_id]
  rw [hmap]

/-- Witness for C3 (amended): the comma-free value `"5.5"` passes
through the replacement unchanged. -/
theorem normalizar_numero_comma_rule_witness : replaceCommaDot "5.5" = "5.5" := by
  exact normalizar_numero_comma_rule.1 "5.5" (by decide)

/-! ## C5/C6: the dataset loader `cargar_cafes`

`cargar_cafes` (src/app.py:45-61) reads the sheet with
`pd.read_csv(..., dtype=str)` (string or NaN cells), coerces the `LAT`
and `LONG` columns, and drops rows whose coerced `LAT` or `LONG` is
NaN.  It performs no column validation of its own: a missing `LAT` or
`LONG` column surfaces as a pandas `KeyError` at the subscript, and no
other column is ever checked. -/

/-- A pandas cell: a string, a number, or NaN. -/
inductive PdVal where
  | s (t : String)
  | n (q : ℚ)
  | na
deriving DecidableEq, Repr

/-- A dataframe, column-oriented as in pandas: named columns of cells.
`read_csv(dtype=str)` yields only `.s` and `.na` cells. -/
structure PDataFrame where
  cols : List (String × List PdVal)
deriving DecidableEq, Repr

/-- Python exceptions that the modelled pandas operations raise. -/
inductive PdError where
  | keyError (column : String)
  | indexError
deriving DecidableEq, Repr

/-- `df[name]` read access: the first column with that name, or a
`KeyError`. -/
def getCol (df : PDataFrame) (name : String) : Except PdError (List PdVal) :=
  match df.cols.find? (fun c => c.1 == name) with
  | some c => .ok c.2
  | none => .error (.keyError name)

/-- `df[name] = vals` write access: replace the column in place, or
append it if absent. -/
def setCol (df : PDataFrame) (name : String) (vals : List PdVal) : PDataFrame :=
  if df.cols.any (fun c => c.1 == name) then
    ⟨df.cols.map (fun c => if c.1 == name then (name, vals) else c)⟩
  else
    ⟨df.cols ++ [(name, vals)]⟩

/-- `col.str.replace(",", ".", regex=False)` on one cell: NaN passes
through, strings get every comma replaced by a dot. -/
def cellReplaceCommaDot (v : PdVal) : PdVal :=
  match v with
  | .s t => .s (replaceCommaDot t)
  | x => x

/-- `pd.to_numeric(col, errors="coerce")` on one cell: strings parse to
a number or NaN, numbers stay, NaN stays. -/
def cellToNumeric (v : PdVal) : PdVal :=
  match v with
  | .s t => (numParse t).elim .na .n
  | .n q => .n q
  | .na => .na

/-- The whole per-cell coercion `cargar_cafes` applies to `LAT`/`LONG`
(src/app.py:52-59). -/
def coerceCell (v : PdVal) : PdVal := cellToNumeric (cellReplaceCommaDot v)

/-- Is the cell NaN? -/
def isNA (v : PdVal) : Bool :=
  match v with
  | .na => true
  | _ => false

/-- Apply a row-keep mask to a column (pandas boolean indexing). -/
def filterMask (mask : List Bool) (col : List PdVal) : List PdVal :=
  (mask.zip col).filterMap (fun p => if p.1 then some p.2 else none)

/-- A column's cells, defaulting to the empty column (only used where
the column is known to exist). -/
def colD (df : PDataFrame) (nm : String) : List PdVal :=
  ((getCol df nm).toOption).getD []

/-- The row-keep mask of `dropna(subset=["LAT", "LONG"])`: both
coordinate cells non-NaN. -/
def dropMask (df : PDataFrame) : List Bool :=
  List.zipWith (fun a b => !isNA a && !isNA b) (colD df "LAT") (colD df "LONG")

/-- `df.dropna(subset=["LAT", "LONG"])` (src/app.py:61): keep the rows
whose `LAT` and `LONG` cells are both non-NaN. -/
def dropnaLatLong (df : PDataFrame) : PDataFrame :=
  ⟨df.cols.map (fun c => (c.1, filterMask (dropMask df) c.2))⟩

/-- `cargar_cafes` after the CSV read (src/app.py:52-61): coerce `LAT`,
coerce `LONG`, drop rows with NaN coordinates.  Exceptions (pandas
`KeyError` on a missing subscript) propagate to the caller. -/
def cargar_cafes_core (df : PDataFrame) : Except PdError PDataFrame := do
  let latRaw ← getCol df "LAT"
  let df1 := setCol df "LAT" (latRaw.map coerceCell)
  let longRaw ← getCol df1 "LONG"
  let df2 := setCol df1 "LONG" (longRaw.map coerceCell)
  pure (dropnaLatLong df2)

/-- A table with both coordinate columns but no `CAFE`, `UBICACION`,
`TOSTADOR` or `PUNTAJE` column; for the C5 counterexample. -/
def dfSinCafe : PDataFrame := ⟨[("LAT", [.s "0"]), ("LONG", [.s "1"])]⟩

/-- Counterexample to C5 as stated: a source table missing the
mandatory name/location/roaster/score columns does NOT make the loader
fail with a SchemaError (or at all) — it loads successfully. -/
theorem cargar_cafes_no_schema_check :
    cargar_cafes_core dfSinCafe =
      .ok ⟨[("LAT", [.n 0]), ("LONG", [.n 1])]⟩ := by rfl

/-- Looking up a column after a name-preserving per-column transform. -/
theorem find_map_named (f : String × List PdVal → List PdVal) (nm : String) :
    ∀ cols : List (String × List PdVal),
      (cols.map (fun c => (c.1, f c))).find? (fun c => c.1 == nm) =
        (cols.find? (fun c => c.1 == nm)).map (fun c => (c.1, f c)) := by
  intro cols
  induction cols with
  | nil => rfl
  | cons c cs ih =>
    cases hc : (c.1 == nm) with
    | true =>
      simp only [List.map_cons, List.find?_cons, hc]
      rfl
    | false =>
      simp only [List.map_cons, List.find?_cons, hc]
      exact ih

/-- Replacing a present column, then looking it up. -/
theorem find_replace_self (nm : String) (vs : List PdVal) :
    ∀ cols : List (String × List PdVal), cols.any (fun c => c.1 == nm) = true →
      (cols.map (fun c => if c.1 == nm then (nm, vs) else c)).find? (fun c => c.1 == nm) =
        some (nm, vs) := by
  intro cols
  induction cols with
  | nil => intro h; cases h
  | cons c cs ih =>
    intro hany
    cases hc : (c.1 == nm) with
    | true =>
      rw [List.map_cons, if_pos hc]
      simp only [List.find?_cons, show ((nm, vs).1 == nm) = true by simp]
    | false =>
      rw [List.map_cons, if_neg (by simp [hc])]
      simp only [List.find?_cons, hc]
      apply ih
      rw [List.any_cons, hc] at hany
      simpa using hany

/-- Replacing a present column does not touch differently-named lookups. -/
theorem find_replace_ne (nm nm' : String) (vs : List PdVal) (hne : nm ≠ nm') :
    ∀ cols : List (String × List PdVal),
      (cols.map (fun c => if c.1 == nm then (nm, vs) else c)).find? (fun c => c.1 == nm') =
        cols.find? (fun c => c.1 == nm') := by
  intro cols
  induction cols with
  | nil => rfl
  | cons c cs ih =>
    cases hc : (c.1 == nm) with
    | true =>
      rw [List.map_cons, if_pos hc]
      have hcnm : c.1 = nm := by simpa using hc
      have h1 : ((nm, vs).1 == nm') = false := by simp [hne]
      have h2 : (c.1 == nm') = false := by simp [hcnm, hne]
      simp only [List.find?_cons, h1, h2]
      exact ih
    | false =>
      rw [List.map_cons, if_neg (by simp [hc])]
      cases hc' : (c.1 == nm') with
      | true => simp only [List.find?_cons, hc']
      | false =>
        simp only [List.find?_cons, hc']
        exact ih

/-- A `find?` over an append whose left part misses. -/
theorem find_append_of_none {α : Type} (p : α → Bool) :
    ∀ l₁ l₂ : List α, l₁.find? p = none → (l₁ ++ l₂).find? p = l₂.find? p := by
  intro l₁
  induction l₁ with
  | nil => intro l₂ _; rfl
  | cons a l ih =>
    intro l₂ hnone
    cases ha : p a with
    | true =>
      simp only [List.find?_cons, ha] at hnone
      cases hnone
    | false =>
      rw [List.cons_append]
      simp only [List.find?_cons, ha] at hnone ⊢
      exact ih l₂ hnone

/-- Reading back the column just written. -/
theorem getCol_setCol_self (df : PDataFrame) (nm : String) (vs : List PdVal) :
    getCol (setCol df nm vs) nm = .ok vs := by
  rw [setCol]
  by_cases hany : df.cols.any (fun c => c.1 == nm) = true
  · rw [if_pos hany, getCol]
    show (match (df.cols.map (fun c => if c.1 == nm then (nm, vs) else c)).find?
        (fun c => c.1 == nm) with
      | some c => Except.ok c.2
      | none => Except.error (PdError.keyError nm)) = Except.ok vs
    rw [find_replace_self nm vs df.cols hany]
  · rw [if_neg hany, getCol]
    have hnone : df.cols.find? (fun c => c.1 == nm) = none := by
      rw [List.find?_eq_none]
      intro x hx hpx
      exact hany (List.any_eq_true.mpr ⟨x, hx, hpx⟩)
    show (match (df.cols ++ [(nm, vs)]).find? (fun c => c.1 == nm) with
      | some c => Except.ok c.2
      | none => Except.error (PdError.keyError nm)) = Except.ok vs
    rw [find_append_of_none _ df.cols [(nm, vs)] hnone]
    simp [List.find?_cons]

/-- Writing one column leaves differently-named lookups unchanged. -/
theorem getCol_setCol_ne (df : PDataFrame) (nm nm' : String) (vs : List PdVal)
    (hne : nm ≠ nm') : getCol (setCol df nm vs) nm' = getCol df nm' := by
  rw [setCol]
  by_cases hany : df.cols.any (fun c => c.1 == nm) = true
  · rw [if_pos hany, getCol, getCol]
    rw [find_replace_ne nm nm' vs hne df.cols]
  · rw [if_neg hany, getCol, getCol]
    cases hf : df.cols.find? (fun c => c.1 == nm') with
    | some c =>
      have hres : (df.cols ++ [(nm, vs)]).find? (fun c => c.1 == nm') = some c := by
        rw [List.find?_append, hf]
        rfl
      rw [hres]
    | none =>
      have hres : (df.cols ++ [(nm, vs)]).find? (fun c => c.1 == nm') = none := by
        rw [find_append_of_none _ df.cols [(nm, vs)] hf]
        simp [List.find?_cons, hne]
      rw [hres]

/-- C5 (amended): the loader performs no mandatory-column validation
and has no SchemaError: it touches only `LAT` and `LONG`.  A source
missing `LAT` (or `LONG`) fails with the pandas `KeyError` for that
subscript; a source that has both coordinate columns loads successfully
no matter which of the other mandatory columns (name, location,
roaster, score) are absent. -/
theorem cargar_cafes_key_errors :
    (∀ df : PDataFrame, getCol df "LAT" = .error (.keyError "LAT") →
      cargar_cafes_core df = .error (.keyError "LAT")) ∧
    (∀ (df : PDataFrame) (latRaw : List PdVal), getCol df "LAT" = .ok latRaw →
      getCol df "LONG" = .error (.keyError "LONG") →
      cargar_cafes_core df = .error (.keyError "LONG")) ∧
    (∀ (df : PDataFrame) (latRaw longRaw : List PdVal),
      getCol df "LAT" = .ok latRaw → getCol df "LONG" = .ok longRaw →
      (cargar_cafes_core df).isOk = true) := by
  refine ⟨?_, ?_, ?_⟩
  · intro df hlat
    rw [cargar_cafes_core, hlat]
    rfl
  · intro df latRaw hlat hlong
    rw [cargar_cafes_core, hlat]
    have hlong1 : getCol (setCol df "LAT" (latRaw.map coerceCell)) "LONG" =
        .error (.keyError "LONG") := by
      rw [getCol_setCol_ne _ _ _ _ (by decide), hlong]
    simp only [Bind.bind, Except.bind, hlong1]
  · intro df latRaw longRaw hlat hlong
    rw [cargar_cafes_core, hlat]
    have hlong1 : getCol (setCol df "LAT" (latRaw.map coerceCell)) "LONG" =
        .ok longRaw := by
      rw [getCol_setCol_ne _ _ _ _ (by decide), hlong]
    simp only [Bind.bind, Except.bind, hlong1]
    rfl

/-- Witness for C5 (amended): a table without `LAT` raises
`KeyError("LAT")`; one with `LAT` but no `LONG` raises
`KeyError("LONG")`; one with both but no `CAFE` loads fine. -/
theorem cargar_cafes_key_errors_witness :
    cargar_cafes_core ⟨[("LONG", [.s "1"])]⟩ = .error (.keyError "LAT") ∧
    cargar_cafes_core ⟨[("LAT", [.s "0"])]⟩ = .error (.keyError "LONG") ∧
    (cargar_cafes_core dfSinCafe).isOk = true := by
  refine ⟨?_, ?_, ?_⟩
  · exact cargar_cafes_key_errors.1 ⟨[("LONG", [.s "1"])]⟩ (by rfl)
  · exact cargar_cafes_key_errors.2.1 ⟨[("LAT", [.s "0"])]⟩ [.s "0"] (by rfl) (by rfl)
  · exact cargar_cafes_key_errors.2.2 dfSinCafe [.s "0"] [.s "1"] (by rfl) (by rfl)

/-- A cell surviving the dropna mask built from its own column (left
position) is non-NaN. -/
theorem mem_filterMask_left (v : PdVal) :
    ∀ (as bs : List PdVal),
      v ∈ filterMask (List.zipWith (fun a b => !isNA a && !isNA b) as bs) as →
        isNA v = false := by
  intro as
  induction as with
  | nil =>
    intro bs h
    simp [filterMask] at h
  | cons a as ih =>
    intro bs h
    cases bs with
    | nil => simp [filterMask] at h
    | cons b bs =>
      rw [List.zipWith_cons_cons, filterMask, List.zip_cons_cons, List.filterMap_cons] at h
      cases hab : (!isNA a && !isNA b) with
      | true =>
        rw [hab] at h
        simp only [if_true, List.mem_cons] at h
        cases h with
        | inl hv =>
          subst hv
          have := (Bool.and_eq_true _ _).mp hab
          simpa using this.1
        | inr hv => exact ih bs (by rw [filterMask]; exact hv)
      | false =>
        rw [hab] at h
        simp only [if_false] at h
        exact ih bs (by rw [filterMask]; exact h)

/-- A cell surviving the dropna mask built from its own column (right
position) is non-NaN. -/
theorem mem_filterMask_right (v : PdVal) :
    ∀ (as bs : List PdVal),
      v ∈ filterMask (List.zipWith (fun a b => !isNA a && !isNA b) as bs) bs →
        isNA v = false := by
  intro as
  induction as with
  | nil =>
    intro bs h
    simp [filterMask] at h
  | cons a as ih =>
    intro bs h
    cases bs with
    | nil => simp [filterMask] at h
    | cons b bs =>
      rw [List.zipWith_cons_cons, filterMask, List.zip_cons_cons, List.filterMap_cons] at h
      cases hab : (!isNA a && !isNA b) with
      | true =>
        rw [hab] at h
        simp only [if_true, List.mem_cons] at h
        cases h with
        | inl hv =>
          subst hv
          have := (Bool.and_eq_true _ _).mp hab
          simpa using this.2
        | inr hv => exact ih bs (by rw [filterMask]; exact hv)
      | false =>
        rw [hab] at h
        simp only [if_false] at h
        exact ih bs (by rw [filterMask]; exact h)

/-- An all-false mask keeps nothing. -/
theorem filterMask_allFalse :
    ∀ (mask : List Bool) (col : List PdVal), (∀ b ∈ mask, b = false) →
      filterMask mask col = [] := by
  intro mask
  induction mask with
  | nil => intro col _; rfl
  | cons m ms ih =>
    intro col hall
    cases col with
    | nil => rfl
    | cons c cs =>
      rw [filterMask, List.zip_cons_cons, List.filterMap_cons]
      have hm : m = false := hall m (List.mem_cons_self m ms)
      rw [hm]
      simp only [if_false]
      exact ih cs (fun b hb => hall b (List.mem_cons_of_mem m hb))

/-- If the left column is all NaN, the dropna mask is all false. -/
theorem dropMask_allNA :
    ∀ (as bs : List PdVal), (∀ a ∈ as, isNA a = true) →
      ∀ m ∈ List.zipWith (fun a b => !isNA a && !isNA b) as bs, m = false := by
  intro as
  induction as with
  | nil => intro bs _ m hm; simp at hm
  | cons a as ih =>
    intro bs hall m hm
    cases bs with
    | nil => simp at hm
    | cons b bs =>
      rw [List.zipWith_cons_cons, List.mem_cons] at hm
      cases hm with
      | inl h =>
        subst h
        rw [hall a (List.mem_cons_self a as)]
        rfl
      | inr h => exact ih bs (fun x hx => hall x (List.mem_cons_of_mem a hx)) m h

/-- `getCol` after `dropna`: the kept column is the masked column. -/
theorem getCol_dropna (df : PDataFrame) (nm : String) (vs : List PdVal)
    (h : getCol df nm = .ok vs) :
    getCol (dropnaLatLong df) nm = .ok (filterMask (dropMask df) vs) := by
  rw [dropnaLatLong, getCol]
  show (match (df.cols.map (fun c => (c.1, (fun c => filterMask (dropMask df) c.2) c))).find?
      (fun c => c.1 == nm) with
    | some c => Except.ok c.2
    | none => Except.error (PdError.keyError nm)) = _
  rw [find_map_named]
  rw [getCol] at h
  cases hf : df.cols.find? (fun c => c.1 == nm) with
  | none =>
    rw [hf] at h
    cases h
  | some c =>
    rw [hf] at h
    have hc2 : c.2 = vs := by
      cases h
      rfl
    subst hc2
    rfl

/-- C6: every record whose `LAT` or `LONG` is NaN after coercion is
dropped by the loader — the loaded table (the source of every ranked
output) contains only non-NaN coordinates; a table whose coerced
coordinates are all NaN loads to an empty table without raising, and
ranking an empty table yields the empty result. -/
theorem cargar_cafes_drops_null_coords
    (df : PDataFrame) (latRaw longRaw : List PdVal)
    (hlat : getCol df "LAT" = .ok latRaw)
    (hlong : getCol df "LONG" = .ok longRaw) :
    ∃ out, cargar_cafes_core df = .ok out ∧
      (∀ v ∈ colD out "LAT", isNA v = false) ∧
      (∀ v ∈ colD out "LONG", isNA v = false) ∧
      ((∀ v ∈ latRaw, isNA (coerceCell v) = true) →
        ∀ c ∈ out.cols, c.2 = ([] : List PdVal)) ∧
      (∀ (g : (ℚ × ℚ) → (ℚ × ℚ) → ℚ) (coords : ℚ × ℚ) (radio : ℚ),
        cafes_en_radio g [] coords radio = []) := by
  have hlong1 : getCol (setCol df "LAT" (latRaw.map coerceCell)) "LONG" = .ok longRaw := by
    rw [getCol_setCol_ne _ _ _ _ (by decide)]
    exact hlong
  refine ⟨dropnaLatLong (setCol (setCol df "LAT" (latRaw.map coerceCell)) "LONG"
    (longRaw.map coerceCell)), ?_, ?_, ?_, ?_, ?_⟩
  · rw [cargar_cafes_core, hlat]
    simp only [Bind.bind, Except.bind, hlong1]
    rfl
  · intro v hv
    have hlat2 : getCol (setCol (setCol df "LAT" (latRaw.map coerceCell)) "LONG"
        (longRaw.map coerceCell)) "LAT" = .ok (latRaw.map coerceCell) := by
      rw [getCol_setCol_ne _ _ _ _ (by decide)]
      exact getCol_setCol_self _ _ _
    rw [colD, getCol_dropna _ _ _ hlat2] at hv
    have hlong2 : getCol (setCol (setCol df "LAT" (latRaw.map coerceCell)) "LONG"
        (longRaw.map coerceCell)) "LONG" = .ok (longRaw.map coerceCell) :=
      getCol_setCol_self _ _ _
    rw [dropMask, colD, colD, hlat2, hlong2] at hv
    exact mem_filterMask_left v (latRaw.map coerceCell) (longRaw.map coerceCell) hv
  · intro v hv
    have hlat2 : getCol (setCol (setCol df "LAT" (latRaw.map coerceCell)) "LONG"
        (longRaw.map coerceCell)) "LAT" = .ok (latRaw.map coerceCell) := by
      rw [getCol_setCol_ne _ _ _ _ (by decide)]
      exact getCol_setCol_self _ _ _
    have hlong2 : getCol (setCol (setCol df "LAT" (latRaw.map coerceCell)) "LONG"
        (longRaw.map coerceCell)) "LONG" = .ok (longRaw.map coerceCell) :=
      getCol_setCol_self _ _ _
    rw [colD, getCol_dropna _ _ _ hlong2] at hv
    rw [dropMask, colD, colD, hlat2, hlong2] at hv
    exact mem_filterMask_right v (latRaw.map coerceCell) (longRaw.map coerceCell) hv
  · intro hall c hc
    rw [dropnaLatLong] at hc
    rw [List.mem_map] at hc
    obtain ⟨c0, hc0, hcc⟩ := hc
    subst hcc
    show filterMask _ c0.2 = []
    apply filterMask_allFalse
    intro b hb
    have hlat2 : getCol (setCol (setCol df "LAT" (latRaw.map coerceCell)) "LONG"
        (longRaw.map coerceCell)) "LAT" = .ok (latRaw.map coerceCell) := by
      rw [getCol_setCol_ne _ _ _ _ (by decide)]
      exact getCol_setCol_self _ _ _
    have hlong2 : getCol (setCol (setCol df "LAT" (latRaw.map coerceCell)) "LONG"
        (longRaw.map coerceCell)) "LONG" = .ok (longRaw.map coerceCell) :=
      getCol_setCol_self _ _ _
    rw [dropMask, colD, colD, hlat2, hlong2] at hb
    apply dropMask_allNA (latRaw.map coerceCell) (longRaw.map coerceCell) ?_ b hb
    intro a ha
    rw [List.mem_map] at ha
    obtain ⟨v, hvmem, hva⟩ := ha
    subst hva
    exact hall v hvmem
  · intro g coords radio
    rfl

/-- Witness for C6: a two-row table where one row has an unparseable
latitude; the surviving latitude cell is numeric (non-NaN), and an
empty table ranks to an empty result. -/
theorem cargar_cafes_drops_null_coords_witness :
    (isNA (.n (3 : ℚ)) = false) ∧
    (∀ (g : (ℚ × ℚ) → (ℚ × ℚ) → ℚ) (coords : ℚ × ℚ) (radio : ℚ),
      cafes_en_radio g [] coords radio = []) := by
  have h := cargar_cafes_drops_null_coords
    ⟨[("LAT", [.s "3", .na]), ("LONG", [.s "4", .s "5"])]⟩
    [.s "3", .na] [.s "4", .s "5"] (by rfl) (by rfl)
  obtain ⟨out, hrun, hlat, hlong, hempty, hrank⟩ := h
  have hout : out = ⟨[("LAT", [.n 3]), ("LONG", [.n 4])]⟩ := by
    have : cargar_cafes_core ⟨[("LAT", [.s "3", .na]), ("LONG", [.s "4", .s "5"])]⟩ =
        .ok ⟨[("LAT", [.n 3]), ("LONG", [.n 4])]⟩ := by rfl
    rw [this] at hrun
    cases hrun
    rfl
  refine ⟨?_, hrank⟩
  apply hlat (.n 3)
  rw [hout]
  show PdVal.n 3 ∈ [PdVal.n 3]
  exact List.mem_singleton.mpr rfl

/-! ## C8: `geocodificar`

`geocodificar` (src/app.py:82-94) returns `None` for an empty or
whitespace-only address, makes a single `geo.geocode` call inside a
`try/except` returning `None` on any exception, and returns `None`
when the geocoder finds no location.  The external ArcGIS geocoder is
abstracted as an oracle from the query string to either an exception
or an optional location. -/

/-- The query string `f"{direccion}, {ciudad}, Buenos Aires, Argentina"`
(src/app.py:88). -/
def geoQuery (direccion ciudad : String) : String :=
  direccion ++ ", " ++ ciudad ++ ", Buenos Aires, Argentina"

/-- `geocodificar`, instrumented with the number of geocoder calls
made.  `direccion.strip()` is modelled by `pyStrip`;
`not direccion or not direccion.strip()` is equivalent to the stripped
string being empty. -/
def geocodificarT (direccion ciudad : String)
    (geo : String → Except Unit (Option (ℚ × ℚ))) : Option (ℚ × ℚ) × ℕ :=
  if pyStrip direccion.data = [] then (none, 0)
  else
    match geo (geoQuery direccion ciudad) with
    | .error _ => (none, 1)
    | .ok none => (none, 1)
    | .ok (some c) => (some c, 1)

/-- `geocodificar` (src/app.py:82-94). -/
def geocodificar (direccion ciudad : String)
    (geo : String → Except Unit (Option (ℚ × ℚ))) : Option (ℚ × ℚ) :=
  (geocodificarT direccion ciudad geo).1

/-- C8: for every address, an empty/whitespace address yields `None`
(with no geocoder call); a geocoder exception yields `None` instead of
propagating; a no-result lookup yields `None`; and at most one
geocoder attempt is ever made per call. -/
theorem geocodificar_failure_modes (direccion ciudad : String)
    (geo : String → Except Unit (Option (ℚ × ℚ))) :
    (pyStrip direccion.data = [] → geocodificar direccion ciudad geo = none ∧
      (geocodificarT direccion ciudad geo).2 = 0) ∧
    (∀ e, geo (geoQuery direccion ciudad) = .error e →
      geocodificar direccion ciudad geo = none) ∧
    (geo (geoQuery direccion ciudad) = .ok none →
      geocodificar direccion ciudad geo = none) ∧
    (geocodificarT direccion ciudad geo).2 ≤ 1 := by
  refine ⟨?_, ?_, ?_, ?_⟩
  · intro hempty
    constructor
    · rw [geocodificar, geocodificarT, if_pos hempty]
    · rw [geocodificarT, if_pos hempty]
  · intro e herr
    rw [geocodificar, geocodificarT]
    by_cases hempty : pyStrip direccion.data = []
    · rw [if_pos hempty]
    · rw [if_neg hempty, herr]
  · intro hnone
    rw [geocodificar, geocodificarT]
    by_cases hempty : pyStrip direccion.data = []
    · rw [if_pos hempty]
    · rw [if_neg hempty, hnone]
  · rw [geocodificarT]
    by_cases hempty : pyStrip direccion.data = []
    · rw [if_pos hempty]
      exact Nat.zero_le 1
    · rw [if_neg hempty]
      cases geo (geoQuery direccion ciudad) with
      | error e => exact le_refl 1
      | ok o =>
        cases o with
        | none => exact le_refl 1
        | some c => exact le_refl 1

/-- Witness for C8: a whitespace-only address and a throwing geocoder
both yield `None`, with at most one attempt. -/
theorem geocodificar_failure_modes_witness :
    (geocodificar "   " "Mar del Plata" (fun _ => .ok (some (1, 2))) = none) ∧
    (geocodificar "Colon 1500" "Mar del Plata" (fun _ => .error ()) = none) ∧
    ((geocodificarT "Colon 1500" "Mar del Plata" (fun _ => .error ())).2 ≤ 1) := by
  refine ⟨?_, ?_, ?_⟩
  · exact ((geocodificar_failure_modes "   " "Mar del Plata"
      (fun _ => .ok (some (1, 2)))).1 (by decide)).1
  · exact (geocodificar_failure_modes "Colon 1500" "Mar del Plata"
      (fun _ => .error ())).2.1 () rfl
  · exact (geocodificar_failure_modes "Colon 1500" "Mar del Plata"
      (fun _ => .error ())).2.2.2

/-! ## C9: `geocodificar_desde_cafes` and `resolver_coordenadas`

`texto_normalizado` (src/app.py:128-132) lower-cases, folds to ASCII,
replaces non-alphanumerics with spaces, collapses whitespace and
strips.  `geocodificar_desde_cafes` (src/app.py:135-158) token-matches
the normalized address against the normalized `UBICACION`/`CAFE`
columns, sorts by match count descending and takes `iloc[0]` — which
raises `IndexError` on an empty dataframe.  `resolver_coordenadas`
(src/app.py:161-170) tries the online geocoder first and falls back to
the local match. -/

/-- `normalizar_texto` (src/app.py:106-112) for a possibly-NaN string
cell: NaN, empty-after-strip, or the literal string "nan" (any case)
become the fallback; otherwise the stripped text. -/
def normalizar_texto (v : Option String) (fallback : String) : String :=
  match v with
  | none => fallback
  | some t =>
    let s : String := ⟨pyStrip t.data⟩
    if s = "" || (⟨s.data.map Char.toLower⟩ : String) = "nan" then fallback else s

/-- One collapsed-whitespace pass: runs of whitespace become a single
space (`re.sub(r"\s+", " ", ...)`); the Bool flag records whether the
previous character was whitespace. -/
def squashWS : Bool → List Char → List Char
  | _, [] => []
  | prevSp, c :: rest =>
    if isPySpace c then
      if prevSp then squashWS true rest else ' ' :: squashWS true rest
    else c :: squashWS false rest

/-- Strip the single leading/trailing spaces left by the squash. -/
def stripSpaces (l : List Char) : List Char :=
  ((l.dropWhile (fun c => c == ' ')).reverse.dropWhile (fun c => c == ' ')).reverse

/-- `texto_normalizado` (src/app.py:128-132).  The NFKD + ASCII-ignore
step is modelled as dropping non-ASCII characters (on ASCII input it is
the identity; in Python an accented letter folds to its base letter
first — the inputs used in the theorems below are plain ASCII). -/
def texto_normalizado (v : Option String) : String :=
  let t := normalizar_texto v ""
  let ascii := t.data.filter (fun c => decide (c.toNat < 128))
  let lowered := ascii.map Char.toLower
  let subbed := lowered.map (fun c =>
    if (('a' ≤ c && c ≤ 'z') || ('A' ≤ c && c ≤ 'Z') || ('0' ≤ c && c ≤ '9') || isPySpace c)
    then c else ' ')
  ⟨stripSpaces (squashWS false subbed)⟩

/-- Python `str.split()`: whitespace-separated words. -/
def splitWordsGo : List Char → List Char → List String
  | acc, [] => if acc.isEmpty then [] else [⟨acc.reverse⟩]
  | acc, c :: rest =>
    if isPySpace c then
      (if acc.isEmpty then splitWordsGo [] rest else (⟨acc.reverse⟩ : String) :: splitWordsGo [] rest)
    else splitWordsGo (c :: acc) rest

/-- Python `str.split()` on a string. -/
def splitWords (s : String) : List String := splitWordsGo [] s.data

/-- Token selection (src/app.py:140-142): words of length at least 3,
falling back to all words when none qualifies. -/
def tokensOf (dn : String) : List String :=
  let ws := splitWords dn
  let ts := ws.filter (fun t => decide (3 ≤ t.length))
  if ts.isEmpty then ws else ts

/-- Is `needle` a prefix of `hay`? -/
def listPrefix : List Char → List Char → Bool
  | [], _ => true
  | _ :: _, [] => false
  | c :: cs, d :: ds => c == d && listPrefix cs ds

/-- Python substring containment `needle in hay`. -/
def strContainsList (needle : List Char) : List Char → Bool
  | [] => needle.isEmpty
  | d :: ds => listPrefix needle (d :: ds) || strContainsList needle ds

/-- The per-row text `f"{row['UBICACION_NORM']} {row['CAFE_NORM']}"`
(src/app.py:145-149), where the columns were `fillna("")`-ed and
normalized. -/
def rowText (r : CafeRow) : String :=
  texto_normalizado (some (r.ubicacion.getD "")) ++ " " ++
    texto_normalizado (some (r.cafe.getD ""))

/-- The `MATCH` score of a row (src/app.py:148-150): how many address
tokens occur in the row's text. -/
def matchScore (toks : List String) (txt : String) : ℕ :=
  toks.countP (fun t => strContainsList t.data txt.data)

/-- The row `candidatos.sort_values("MATCH", ascending=False).iloc[0]`
(src/app.py:153): a row of maximal `MATCH`.  Among tied rows pandas'
descending unstable sort determines the pick; for tables of at most 16
rows the reversed stable order makes it the last tied row, which is
what this fold picks; the theorems below use only its maximality. -/
def bestRow (toks : List String) : CafeRow → List CafeRow → CafeRow
  | b, [] => b
  | b, r :: rs =>
    bestRow toks (if matchScore toks (rowText b) ≤ matchScore toks (rowText r) then r else b) rs

/-- `geocodificar_desde_cafes` (src/app.py:135-158): empty normalized
address returns `None` before touching the dataframe; otherwise the
best-matching row is taken with `iloc[0]` — an `IndexError` on an
empty dataframe — and its coordinates are returned when its match
count is positive. -/
def geocodificar_desde_cafes (direccion : String) (rows : List CafeRow) :
    Except PdError (Option (ℚ × ℚ)) :=
  if texto_normalizado (some direccion) = "" then .ok none
  else
    match rows with
    | [] => .error .indexError
    | r :: rs =>
      let toks := tokensOf (texto_normalizado (some direccion))
      let mejor := bestRow toks r rs
      if matchScore toks (rowText mejor) = 0 then .ok none
      else .ok (some (mejor.lat, mejor.long))

/-- `resolver_coordenadas` (src/app.py:161-170): online result tagged
"online", local fallback tagged "local", otherwise `(None, None)`. -/
def resolver_coordenadas (direccion ciudad : String) (rows : List CafeRow)
    (geo : String → Except Unit (Option (ℚ × ℚ))) :
    Except PdError (Option (ℚ × ℚ) × Option String) :=
  match geocodificar direccion ciudad geo with
  | some c => .ok (some c, some "online")
  | none =>
    match geocodificar_desde_cafes direccion rows with
    | .error e => .error e
    | .ok (some c) => .ok (some c, some "local")
    | .ok none => .ok (none, none)

/-- `bestRow` returns one of the rows. -/
theorem bestRow_mem (toks : List String) :
    ∀ (rs : List CafeRow) (b : CafeRow), bestRow toks b rs ∈ b :: rs := by
  intro rs
  induction rs with
  | nil =>
    intro b
    rw [bestRow]
    exact List.mem_singleton.mpr rfl
  | cons r rs ih =>
    intro b
    rw [bestRow]
    by_cases hle : matchScore toks (rowText b) ≤ matchScore toks (rowText r)
    · rw [if_pos hle]
      have := ih r
      rw [List.mem_cons] at this
      cases this with
      | inl h => rw [h]; exact List.mem_cons_of_mem _ (List.mem_cons_self _ _)
      | inr h => exact List.mem_cons_of_mem _ (List.mem_cons_of_mem _ h)
    · rw [if_neg hle]
      have := ih b
      rw [List.mem_cons] at this
      cases this with
      | inl h => rw [h]; exact List.mem_cons_self _ _
      | inr h => exact List.mem_cons_of_mem _ (List.mem_cons_of_mem _ h)

/-- `bestRow` has maximal match score among the rows. -/
theorem bestRow_max (toks : List String) :
    ∀ (rs : List CafeRow) (b : CafeRow), ∀ x ∈ b :: rs,
      matchScore toks (rowText x) ≤ matchScore toks (rowText (bestRow toks b rs)) := by
  intro rs
  induction rs with
  | nil =>
    intro b x hx
    rw [List.mem_singleton] at hx
    rw [hx, bestRow]
  | cons r rs ih =>
    intro b x hx
    rw [bestRow]
    have hbb : matchScore toks (rowText b) ≤ matchScore toks
        (rowText (if matchScore toks (rowText b) ≤ matchScore toks (rowText r) then r else b)) := by
      by_cases hle : matchScore toks (rowText b) ≤ matchScore toks (rowText r)
      · rw [if_pos hle]; exact hle
      · rw [if_neg hle]
    have hrr : matchScore toks (rowText r) ≤ matchScore toks
        (rowText (if matchScore toks (rowText b) ≤ matchScore toks (rowText r) then r else b)) := by
      by_cases hle : matchScore toks (rowText b) ≤ matchScore toks (rowText r)
      · rw [if_pos hle]
      · rw [if_neg hle]; omega
    have hbest := ih (if matchScore toks (rowText b) ≤ matchScore toks (rowText r) then r else b)
    have hself := hbest _ (List.mem_cons_self _ _)
    rw [List.mem_cons] at hx
    cases hx with
    | inl h => rw [h]; exact le_trans hbb hself
    | inr h =>
      rw [List.mem_cons] at h
      cases h with
      | inl h => rw [h]; exact le_trans hrr hself
      | inr h => exact hbest x (List.mem_cons_of_mem _ h)

/-- Counterexample to C9 as stated: with the online geocoder returning
no result and an EMPTY café dataset, no record matches any token
(vacuously), so the claim demands `(None, None)` — but the code raises
`IndexError` at `iloc[0]` instead. -/
theorem resolver_coordenadas_empty_df_raises :
    resolver_coordenadas "colon" "Mar del Plata" [] (fun _ => .ok none) =
      .error .indexError ∧
    resolver_coordenadas "colon" "Mar del Plata" [] (fun _ => .ok none) ≠
      .ok (none, none) := by
  have h : resolver_coordenadas "colon" "Mar del Plata" [] (fun _ => .ok none) =
      .error .indexError := by rfl
  refine ⟨h, ?_⟩
  intro hcontra
  rw [h] at hcontra
  cases hcontra

/-- C9 (amended): when the online geocoder returns `None` and the
dataset is NONEMPTY, `resolver_coordenadas` falls back to the local
token match: an empty normalized address yields `(None, None)`; if no
record matches any token it yields `(None, None)`; and if some record
matches at least one token it returns, tagged "local", the coordinates
of a record with the highest match count.  (On an empty dataset with a
nonempty normalized address the fallback instead raises `IndexError`,
see the counterexample.) -/
theorem resolver_coordenadas_local_fallback
    (direccion ciudad : String) (geo : String → Except Unit (Option (ℚ × ℚ)))
    (r0 : CafeRow) (rs : List CafeRow)
    (honline : geocodificar direccion ciudad geo = none) :
    (texto_normalizado (some direccion) = "" →
      resolver_coordenadas direccion ciudad (r0 :: rs) geo = .ok (none, none)) ∧
    ((∀ x ∈ r0 :: rs,
        matchScore (tokensOf (texto_normalizado (some direccion))) (rowText x) = 0) →
      resolver_coordenadas direccion ciudad (r0 :: rs) geo = .ok (none, none)) ∧
    (∀ x ∈ r0 :: rs,
      1 ≤ matchScore (tokensOf (texto_normalizado (some direccion))) (rowText x) →
      ∃ b ∈ r0 :: rs,
        (∀ y ∈ r0 :: rs,
          matchScore (tokensOf (texto_normalizado (some direccion))) (rowText y) ≤
            matchScore (tokensOf (texto_normalizado (some direccion))) (rowText b)) ∧
        resolver_coordenadas direccion ciudad (r0 :: rs) geo =
          .ok (some (b.lat, b.long), some "local")) := by
  refine ⟨?_, ?_, ?_⟩
  · intro hdn
    rw [resolver_coordenadas, honline, geocodificar_desde_cafes, if_pos hdn]
  · intro hzero
    rw [resolver_coordenadas, honline, geocodificar_desde_cafes]
    by_cases hdn : texto_normalizado (some direccion) = ""
    · rw [if_pos hdn]
    · rw [if_neg hdn]
      have hmem := bestRow_mem (tokensOf (texto_normalizado (some direccion))) rs r0
      have hz := hzero _ hmem
      rw [if_pos hz]
  · intro x hx hone
    refine ⟨bestRow (tokensOf (texto_normalizado (some direccion))) r0 rs,
      bestRow_mem _ rs r0, fun y hy => bestRow_max _ rs r0 y hy, ?_⟩
    have hdn : texto_normalizado (some direccion) ≠ "" := by
      intro hdn
      rw [hdn] at hone
      have htoks : tokensOf "" = [] := by rfl
      rw [htoks] at hone
      have : matchScore [] (rowText x) = 0 := by rfl
      omega
    rw [resolver_coordenadas, honline, geocodificar_desde_cafes, if_neg hdn]
    have hmax := bestRow_max (tokensOf (texto_normalizado (some direccion))) rs r0 x hx
    have hpos : matchScore (tokensOf (texto_normalizado (some direccion)))
        (rowText (bestRow (tokensOf (texto_normalizado (some direccion))) r0 rs)) ≠ 0 := by
      omega
    rw [if_neg hpos]

/-- A concrete café row on Avenida Colón, for the C9 witness. -/
def rowColon : CafeRow := ⟨some "Cafa", some "Av Colon 1500", none, -38, -57⟩

/-- Witness for C9 (amended): searching "colon" against the one-row
table finds the Colón café through the local fallback. -/
theorem resolver_coordenadas_local_fallback_witness :
    resolver_coordenadas "colon" "Mar del Plata" [rowColon] (fun _ => .ok none) =
      .ok (some ((-38 : ℚ), (-57 : ℚ)), some "local") := by
  have h := (resolver_coordenadas_local_fallback "colon" "Mar del Plata"
    (fun _ => .ok none) rowColon [] (by rfl)).2.2 rowColon
    (List.mem_singleton.mpr rfl) (by decide)
  obtain ⟨b, hbmem, _, hres⟩ := h
  rw [List.mem_singleton] at hbmem
  subst hbmem
  exact hres

/-! ## C7: the vote ledger

This source variant has no vote code; the claim rests on the design
document alone (spec §4.3 Vote Ledger, §3 VoteRecord). -/

/-- Modelled from the spec: `VoteRecord` (§3) — the repository variant
in `src/` contains no vote-ledger code, so the record type is taken
from the data model: voter id, item name, score, timestamp (modelled
as a number so "later" is comparable). -/
structure VoteRecord where
  voter_id : String
  item_name : String
  score : ℚ
  timestamp : ℕ
deriving DecidableEq, Repr

/-- Does the record carry the given `(voter_id, item_name)` key? -/
def voteKeyIs (voter item : String) (v : VoteRecord) : Bool :=
  v.voter_id == voter && v.item_name == item

/-- Modelled from the spec: `upsert_vote` (§4.3) — absent from this
source variant — "scans existing records for a matching
`(voter_id, item_name)` pair; if found, overwrites score and timestamp
in place; if not found, appends a new record". -/
def upsert_vote (ledger : List VoteRecord) (voter item : String) (score : ℚ)
    (now : ℕ) : List VoteRecord :=
  if ledger.any (voteKeyIs voter item) then
    ledger.map (fun v => if voteKeyIs voter item v then
      { v with score := score, timestamp := now } else v)
  else ledger ++ [⟨voter, item, score, now⟩]

/-- How many records carry the key. -/
def keyCount (ledger : List VoteRecord) (voter item : String) : ℕ :=
  ledger.countP (voteKeyIs voter item)

/-- The spec invariant (§3): at most one VoteRecord per
`(voter_id, item_name)` pair. -/
def UniqueKeys (ledger : List VoteRecord) : Prop :=
  ∀ voter item, keyCount ledger voter item ≤ 1

/-- The records carrying a key, after one upsert: exactly the new one. -/
theorem upsert_vote_filter (ledger : List VoteRecord) (voter item : String)
    (score : ℚ) (now : ℕ) (hu : UniqueKeys ledger) :
    (upsert_vote ledger voter item score now).filter (voteKeyIs voter item) =
      [⟨voter, item, score, now⟩] := by
  rw [upsert_vote]
  by_cases hany : ledger.any (voteKeyIs voter item) = true
  · rw [if_pos hany]
    have hcnt : (ledger.filter (voteKeyIs voter item)).length = keyCount ledger voter item := by
      rw [keyCount, List.countP_eq_length_filter]
    have hone : keyCount ledger voter item = 1 := by
      have hle := hu voter item
      have hpos : 0 < keyCount ledger voter item := by
        obtain ⟨x, hxmem, hx⟩ := List.any_eq_true.mp hany
        rw [keyCount]
        exact List.countP_pos_iff.mpr ⟨x, hxmem, hx⟩
      omega
    rw [List.filter_map]
    have hpred : ((voteKeyIs voter item) ∘ (fun v => if voteKeyIs voter item v then
        { v with score := score, timestamp := now } else v)) = voteKeyIs voter item := by
      funext v
      show voteKeyIs voter item (if voteKeyIs voter item v then _ else v) = _
      by_cases hv : voteKeyIs voter item v = true
      · rw [if_pos hv]
        rfl
      · rw [if_neg hv]
    rw [hpred]
    cases hfl : ledger.filter (voteKeyIs voter item) with
    | nil =>
      rw [hfl] at hcnt
      simp at hcnt
      omega
    | cons w tl =>
      cases tl with
      | cons w2 tl2 =>
        rw [hfl] at hcnt
        simp at hcnt
        omega
      | nil =>
        rw [List.map_singleton]
        have hwmem : w ∈ ledger.filter (voteKeyIs voter item) := by
          rw [hfl]
          exact List.mem_cons_self _ _
        have hw : voteKeyIs voter item w = true := List.of_mem_filter hwmem
        have hwv : w.voter_id = voter ∧ w.item_name = item := by
          rw [voteKeyIs, Bool.and_eq_true] at hw
          exact ⟨by simpa using hw.1, by simpa using hw.2⟩
        rw [if_pos hw]
        show [(⟨w.voter_id, w.item_name, score, now⟩ : VoteRecord)] =
          [(⟨voter, item, score, now⟩ : VoteRecord)]
        rw [hwv.1, hwv.2]
  · rw [if_neg hany]
    rw [List.filter_append]
    have hleft : ledger.filter (voteKeyIs voter item) = [] := by
      rw [List.filter_eq_nil_iff]
      intro x hx hcontra
      exact hany (List.any_eq_true.mpr ⟨x, hx, hcontra⟩)
    rw [hleft, List.nil_append]
    show List.filter (voteKeyIs voter item) [(⟨voter, item, score, now⟩ : VoteRecord)] =
      [(⟨voter, item, score, now⟩ : VoteRecord)]
    rw [List.filter_singleton]
    have hkey : voteKeyIs voter item ⟨voter, item, score, now⟩ = true := by
      rw [voteKeyIs]
      simp
    rw [hkey]
    rfl

/-- One upsert preserves the at-most-one-record-per-key invariant. -/
theorem upsert_vote_unique (ledger : List VoteRecord) (voter item : String)
    (score : ℚ) (now : ℕ) (hu : UniqueKeys ledger) :
    UniqueKeys (upsert_vote ledger voter item score now) := by
  intro voter' item'
  rw [keyCount, upsert_vote]
  by_cases hany : ledger.any (voteKeyIs voter item) = true
  · rw [if_pos hany, List.countP_map]
    have hpred : ((voteKeyIs voter' item') ∘ (fun v => if voteKeyIs voter item v then
        { v with score := score, timestamp := now } else v)) = voteKeyIs voter' item' := by
      funext v
      show voteKeyIs voter' item' (if voteKeyIs voter item v then _ else v) = _
      by_cases hv : voteKeyIs voter item v = true
      · rw [if_pos hv]
        rfl
      · rw [if_neg hv]
    rw [hpred]
    exact hu voter' item'
  · rw [if_neg hany, List.countP_append]
    by_cases hkey : voteKeyIs voter' item' ⟨voter, item, score, now⟩ = true
    · have hsame : voter = voter' ∧ item = item' := by
        rw [voteKeyIs, Bool.and_eq_true] at hkey
        exact ⟨by simpa using hkey.1, by simpa using hkey.2⟩
      have hzero : ledger.countP (voteKeyIs voter' item') = 0 := by
        rw [List.countP_eq_zero]
        intro a ha hcontra
        rw [← hsame.1, ← hsame.2] at hcontra
        exact hany (List.any_eq_true.mpr ⟨a, ha, hcontra⟩)
      rw [hzero, List.countP_cons, List.countP_nil, hkey]
      simp
    · have hzero : List.countP (voteKeyIs voter' item') [⟨voter, item, score, now⟩] = 0 := by
        rw [List.countP_cons, List.countP_nil, if_neg hkey]
      rw [hzero]
      have := hu voter' item'
      rw [keyCount] at this
      omega

/-- C7 (spec-modelled): upserting twice with the same
`(voter_id, item_name)` and different scores leaves exactly one record
for that pair — carrying the second score and the later timestamp `t2 > t1`
— and the at-most-one-record-per-pair invariant holds afterwards. -/
theorem upsert_vote_twice (ledger : List VoteRecord) (voter item : String)
    (s1 s2 : ℚ) (t1 t2 : ℕ) (hu : UniqueKeys ledger) (ht : t1 < t2) :
    ((upsert_vote (upsert_vote ledger voter item s1 t1) voter item s2 t2).filter
        (voteKeyIs voter item) = [⟨voter, item, s2, t2⟩]) ∧
    keyCount (upsert_vote (upsert_vote ledger voter item s1 t1) voter item s2 t2)
      voter item = 1 ∧
    UniqueKeys (upsert_vote (upsert_vote ledger voter item s1 t1) voter item s2 t2) ∧
    t1 < t2 := by
  have hu1 : UniqueKeys (upsert_vote ledger voter item s1 t1) :=
    upsert_vote_unique ledger voter item s1 t1 hu
  have hfl := upsert_vote_filter (upsert_vote ledger voter item s1 t1) voter item s2 t2 hu1
  refine ⟨hfl, ?_, upsert_vote_unique _ voter item s2 t2 hu1, ht⟩
  rw [keyCount, List.countP_eq_length_filter, hfl]
  rfl

/-- Witness for C7: two votes by the same voter for the same café leave
one record with the second score and the later timestamp. -/
theorem upsert_vote_twice_witness :
    ((upsert_vote (upsert_vote [] "voter1" "Cafe Cero" 3 0) "voter1" "Cafe Cero" 7 1).filter
        (voteKeyIs "voter1" "Cafe Cero") = [⟨"voter1", "Cafe Cero", 7, 1⟩]) ∧
    keyCount (upsert_vote (upsert_vote [] "voter1" "Cafe Cero" 3 0) "voter1" "Cafe Cero" 7 1)
      "voter1" "Cafe Cero" = 1 := by
  have hu : UniqueKeys ([] : List VoteRecord) := by
    intro voter item
    rw [keyCount, List.countP_nil]
    omega
  have h := upsert_vote_twice [] "voter1" "Cafe Cero" 3 7 0 1 hu (by omega)
  exact ⟨h.1, h.2.1⟩

/-! ## C2: `resultado.sort_values("DIST_KM")` (src/app.py:348)

pandas `sort_values` with the default `kind="quicksort"` argsorts the
key column with numpy's introsort (npysort `aquicksort`): median-of-3
quicksort down to segments of at most 16 elements (`SMALL_QUICKSORT`
= 15), insertion sort on the small segments, heapsort once the depth
budget `2 * log2 n` is exhausted, iterating with an explicit segment
stack.  The partition step swaps equal elements across the segment, so
the order of tied keys is NOT the source order once a partition runs
(n ≥ 17).  The functions below are a direct model of that algorithm on
an index list (`tosort`), with fuel for the C loops; the fuel bounds
are generous enough that they are never exhausted on the inputs
evaluated here. -/

/-- `v[tosort[i]]`: the key at (post-permutation) position `i`. -/
def qsKey (ks : List ℚ) (idx : List ℕ) (i : ℕ) : ℚ := ks.getD (idx.getD i 0) 0

/-- `INTP_SWAP(*a, *b)` on the index list. -/
def idxSwap (idx : List ℕ) (i j : ℕ) : List ℕ :=
  (idx.set i (idx.getD j 0)).set j (idx.getD i 0)

/-- Insert a `(key, index)` pair into a sorted prefix: before the first
strictly greater key, i.e. after all keys less than or equal — the
position numpy's right-to-left shifting insertion reaches. -/
def insertA (x : ℚ × ℕ) : List (ℚ × ℕ) → List (ℚ × ℕ)
  | [] => [x]
  | y :: ys => if x.1 < y.1 then x :: y :: ys else y :: insertA x ys

/-- The insertion-sort pass: fold the elements left to right into the
sorted prefix. -/
def insRun : List (ℚ × ℕ) → List (ℚ × ℕ) → List (ℚ × ℕ)
  | acc, [] => acc
  | acc, x :: xs => insRun (insertA x acc) xs

/-- Read the index segment `[pl, pr]`. -/
def segExtract (idx : List ℕ) (pl pr : ℕ) : List ℕ :=
  (List.range (pr + 1 - pl)).map (fun k => idx.getD (pl + k) 0)

/-- Write a segment back at position `p`. -/
def writeSeg (idx : List ℕ) (p : ℕ) : List ℕ → List ℕ
  | [] => idx
  | v :: rest => writeSeg (idx.set p v) (p + 1) rest

/-- The insertion sort numpy runs on a small segment `[pl, pr]`. -/
def insSortSeg (ks : List ℚ) (idx : List ℕ) (pl pr : ℕ) : List ℕ :=
  let seg := segExtract idx pl pr
  let sorted := insRun [] (seg.map (fun i => (ks.getD i 0, i)))
  writeSeg idx pl (sorted.map (fun p => p.2))

/-- `do ++pi; while (LT(v[*pi], vp))`: first position at or after `i`
whose key is not below the pivot. -/
def scanUp (ks : List ℚ) (idx : List ℕ) (vp : ℚ) : ℕ → ℕ → ℕ
  | i, 0 => i
  | i, fuel + 1 => if qsKey ks idx i < vp then scanUp ks idx vp (i + 1) fuel else i

/-- `do --pj; while (LT(vp, v[*pj]))`: first position at or below `j`
whose key is not above the pivot. -/
def scanDown (ks : List ℚ) (idx : List ℕ) (vp : ℚ) : ℕ → ℕ → ℕ
  | j, 0 => j
  | j, fuel + 1 => if vp < qsKey ks idx j then scanDown ks idx vp (j - 1) fuel else j

/-- The Hoare-style partition loop; returns the final index list and
the crossing position `pi`. -/
def partLoop (ks : List ℚ) : List ℕ → ℚ → ℕ → ℕ → ℕ → List ℕ × ℕ
  | idx, _, ii, _, 0 => (idx, ii)
  | idx, vp, ii, jj, fuel + 1 =>
    let i := scanUp ks idx vp (ii + 1) (idx.length + 2)
    let j := scanDown ks idx vp (jj - 1) (idx.length + 2)
    if j ≤ i then (idx, i)
    else partLoop ks (idxSwap idx i j) vp i j fuel

/-- The three conditional swaps putting the median of
`v[*pl], v[*pm], v[*pr]` at `pm`. -/
def medianOf3 (ks : List ℚ) (idx : List ℕ) (pl pm pr : ℕ) : List ℕ :=
  let idx1 := if qsKey ks idx pm < qsKey ks idx pl then idxSwap idx pm pl else idx
  let idx2 := if qsKey ks idx1 pr < qsKey ks idx1 pm then idxSwap idx1 pr pm else idx1
  if qsKey ks idx2 pm < qsKey ks idx2 pl then idxSwap idx2 pm pl else idx2

/-- The heapsort sift loop of numpy's `aheapsort` (1-based positions
within the segment starting at `pl`); returns the index list and the
final hole position `i`. -/
def heapSift (ks : List ℚ) (pl : ℕ) (tmp : ℕ) (n : ℕ) :
    List ℕ → ℕ → ℕ → ℕ → List ℕ × ℕ
  | idx, i, _, 0 => (idx, i)
  | idx, i, j, fuel + 1 =>
    if j ≤ n then
      let j := if j < n && decide (ks.getD (idx.getD (pl + j - 1) 0) 0 <
        ks.getD (idx.getD (pl + j) 0) 0) then j + 1 else j
      if ks.getD tmp 0 < ks.getD (idx.getD (pl + j - 1) 0) 0 then
        heapSift ks pl tmp n (idx.set (pl + i - 1) (idx.getD (pl + j - 1) 0)) j (j + j) fuel
      else (idx, i)
    else (idx, i)

/-- The heap-construction phase (`for l = n >> 1; l > 0; --l`). -/
def heapBuild (ks : List ℚ) (pl n : ℕ) : List ℕ → ℕ → List ℕ
  | idx, 0 => idx
  | idx, l + 1 =>
    let lcur := l + 1
    let tmp := idx.getD (pl + lcur - 1) 0
    let res := heapSift ks pl tmp n idx lcur (2 * lcur) (n + 2)
    heapBuild ks pl n (res.1.set (pl + res.2 - 1) tmp) l

/-- The extraction phase (`for ; n > 1;`), structural on `n`. -/
def heapExtract (ks : List ℚ) (pl : ℕ) : List ℕ → ℕ → List ℕ
  | idx, 0 => idx
  | idx, 1 => idx
  | idx, n + 2 =>
    let ncur := n + 2
    let tmp := idx.getD (pl + ncur - 1) 0
    let idx1 := idx.set (pl + ncur - 1) (idx.getD pl 0)
    let res := heapSift ks pl tmp (ncur - 1) idx1 1 2 (ncur + 2)
    heapExtract ks pl (res.1.set (pl + res.2 - 1) tmp) (n + 1)

/-- numpy `aheapsort` on the segment `[pl, pl + n - 1]`. -/
def aheapsort (ks : List ℚ) (idx : List ℕ) (pl n : ℕ) : List ℕ :=
  heapExtract ks pl (heapBuild ks pl n idx (n / 2)) n

/-- numpy `aquicksort`'s main loop: `idx` is `tosort`, `[pl, pr]` the
current segment, `stack` the pending segments, `depth` the remaining
introsort depth budget (`depth_limit`, decremented by the
`depth_limit-- < 0` check each big-segment iteration). -/
def aquicksortGo (ks : List ℚ) :
    List ℕ → ℕ → ℕ → List (ℕ × ℕ) → ℤ → ℕ → List ℕ
  | idx, _, _, _, _, 0 => idx
  | idx, pl, pr, stack, depth, fuel + 1 =>
    if 15 < pr - pl then
      if depth < 0 then
        let idx2 := aheapsort ks idx pl (pr - pl + 1)
        match stack with
        | [] => idx2
        | (a, b) :: rest => aquicksortGo ks idx2 a b rest (depth - 1) fuel
      else
        let pm := pl + (pr - pl) / 2
        let idx1 := medianOf3 ks idx pl pm pr
        let vp := qsKey ks idx1 pm
        let idx2 := idxSwap idx1 pm (pr - 1)
        let res := partLoop ks idx2 vp pl (pr - 1) (pr - pl + 2)
        let idx4 := idxSwap res.1 res.2 (pr - 1)
        if res.2 - pl < pr - res.2 then
          aquicksortGo ks idx4 pl (res.2 - 1) ((res.2 + 1, pr) :: stack) (depth - 1) fuel
        else
          aquicksortGo ks idx4 (res.2 + 1) pr ((pl, res.2 - 1) :: stack) (depth - 1) fuel
    else
      let idx2 := insSortSeg ks idx pl pr
      match stack with
      | [] => idx2
      | (a, b) :: rest => aquicksortGo ks idx2 a b rest depth fuel

/-- `np.argsort(keys, kind="quicksort")` as called by pandas
`sort_values("DIST_KM")`: start on the whole range with depth budget
`2 * log2 n`. -/
def npArgsort (ks : List ℚ) : List ℕ :=
  aquicksortGo ks (List.range ks.length) 0 (ks.length - 1) []
    (2 * (Nat.log2 ks.length : ℤ)) (2 * ks.length + 64)

/-- `resultado.sort_values("DIST_KM")` (src/app.py:348): reorder the
rows by the argsort permutation of the `DIST_KM` column. -/
def sort_values_dist (rows : List (CafeRow × ℚ)) : List (CafeRow × ℚ) :=
  (npArgsort (rows.map (fun p => p.2))).map (fun i => rows.getD i ((default : CafeRow), 0))

/-- Seventeen rows at the same distance (`DIST_KM = 1` throughout),
distinguishable by latitude; the smallest size at which numpy's
quicksort runs a partition. -/
def rows17eq : List (CafeRow × ℚ) :=
  (List.range 17).map (fun k => (⟨none, none, none, (k : ℚ), 0⟩, (1 : ℚ)))

/-- Counterexample to C2 as stated: on a filtered result of 17 records
with equal `distance_km`, `sort_values("DIST_KM")` does NOT keep the
records in original source order — the default numpy quicksort permutes
the ties (the second row of the output is source row 14). -/
theorem sort_values_dist_unstable : sort_values_dist rows17eq ≠ rows17eq := by decide

/-- The stability order on `(key, source index)` pairs: strictly
smaller key, or equal key and strictly earlier source position. -/
def pleLex (p q : ℚ × ℕ) : Prop := p.1 < q.1 ∨ (p.1 = q.1 ∧ p.2 < q.2)

/-- Inserting is a permutation. -/
theorem insertA_perm (x : ℚ × ℕ) : ∀ l : List (ℚ × ℕ), (insertA x l).Perm (x :: l) := by
  intro l
  induction l with
  | nil => exact List.Perm.refl _
  | cons y ys ih =>
    rw [insertA]
    by_cases hxy : x.1 < y.1
    · rw [if_pos hxy]
    · rw [if_neg hxy]
      exact List.Perm.trans (List.Perm.cons y ih) (List.Perm.swap x y ys)

/-- Membership after insertion. -/
theorem insertA_mem (x z : ℚ × ℕ) (l : List (ℚ × ℕ)) :
    z ∈ insertA x l ↔ (z = x ∨ z ∈ l) := by
  rw [(insertA_perm x l).mem_iff, List.mem_cons]

/-- Inserting an element whose source index exceeds every index in a
lex-sorted list keeps the list lex-sorted. -/
theorem insertA_sorted (x : ℚ × ℕ) :
    ∀ l : List (ℚ × ℕ), List.Pairwise pleLex l → (∀ y ∈ l, y.2 < x.2) →
      List.Pairwise pleLex (insertA x l) := by
  intro l
  induction l with
  | nil =>
    intro _ _
    exact List.pairwise_singleton _ _
  | cons y ys ih =>
    intro hs hidx
    rw [insertA]
    by_cases hxy : x.1 < y.1
    · rw [if_pos hxy]
      rw [List.pairwise_cons]
      refine ⟨?_, hs⟩
      intro z hz
      rw [List.mem_cons] at hz
      cases hz with
      | inl h =>
        subst h
        exact Or.inl hxy
      | inr h =>
        have hyz := (List.pairwise_cons.mp hs).1 z h
        rw [pleLex] at hyz
        left
        cases hyz with
        | inl h1 => exact lt_trans hxy h1
        | inr h1 => exact h1.1 ▸ hxy
    · rw [if_neg hxy]
      rw [List.pairwise_cons]
      constructor
      · intro z hz
        rw [insertA_mem] at hz
        cases hz with
        | inl h =>
          subst h
          rw [pleLex]
          rcases lt_or_eq_of_le (le_of_not_lt hxy) with h1 | h1
          · exact Or.inl h1
          · exact Or.inr ⟨h1, hidx y (List.mem_cons_self _ _)⟩
        | inr h => exact (List.pairwise_cons.mp hs).1 z h
      · exact ih (List.pairwise_cons.mp hs).2
          (fun z hz => hidx z (List.mem_cons_of_mem _ hz))

/-- The insertion pass is a permutation. -/
theorem insRun_perm : ∀ (l acc : List (ℚ × ℕ)), (insRun acc l).Perm (acc ++ l) := by
  intro l
  induction l with
  | nil =>
    intro acc
    rw [insRun, List.append_nil]
  | cons x xs ih =>
    intro acc
    rw [insRun]
    have h1 := ih (insertA x acc)
    have h2 : (insertA x acc ++ xs).Perm ((x :: acc) ++ xs) :=
      (insertA_perm x acc).append_right xs
    have h3 : ((x :: acc) ++ xs).Perm (acc ++ x :: xs) := by
      rw [List.cons_append]
      exact List.perm_middle.symm.trans (List.Perm.refl _) |>.symm.symm
    exact h1.trans (h2.trans h3)

/-- The insertion pass on pairs with increasing source indices produces
a lex-sorted list. -/
theorem insRun_sorted :
    ∀ (l acc : List (ℚ × ℕ)), List.Pairwise pleLex acc →
      (∀ y ∈ acc, ∀ x ∈ l, y.2 < x.2) →
      List.Pairwise (fun a b : ℚ × ℕ => a.2 < b.2) l →
      List.Pairwise pleLex (insRun acc l) := by
  intro l
  induction l with
  | nil =>
    intro acc hacc _ _
    rw [insRun]
    exact hacc
  | cons x xs ih =>
    intro acc hacc hsep hl
    rw [insRun]
    apply ih
    · exact insertA_sorted x acc hacc
        (fun y hy => hsep y hy x (List.mem_cons_self _ _))
    · intro y hy z hz
      rw [insertA_mem] at hy
      cases hy with
      | inl h =>
        subst h
        exact (List.pairwise_cons.mp hl).1 z hz
      | inr h => exact hsep y h z (List.mem_cons_of_mem _ hz)
    · exact (List.pairwise_cons.mp hl).2

/-- Writing a full-width segment at position `p` splices it into the
index list. -/
theorem writeSeg_eq : ∀ (l idx : List ℕ) (p : ℕ), p + l.length ≤ idx.length →
    writeSeg idx p l = idx.take p ++ l ++ idx.drop (p + l.length) := by
  intro l
  induction l with
  | nil =>
    intro idx p h
    rw [writeSeg, List.append_nil, List.length_nil, Nat.add_zero, List.take_append_drop]
  | cons v rest ih =>
    intro idx p h
    rw [List.length_cons] at h
    have hp : p < idx.length := by omega
    rw [writeSeg]
    rw [ih (idx.set p v) (p + 1) (by rw [List.length_set]; omega)]
    have hset : idx.set p v = idx.take p ++ v :: idx.drop (p + 1) := by
      rw [List.set_eq_take_append_cons_drop, if_pos hp]
    have htake : (idx.set p v).take (p + 1) = idx.take p ++ [v] := by
      rw [hset, List.take_append_eq_append_take]
      have hlen : (idx.take p).length = p := by
        rw [List.length_take]
        omega
      rw [hlen]
      have h1 : (idx.take p).take (p + 1) = idx.take p := by
        rw [List.take_take]
        have : min (p + 1) p = p := by omega
        rw [this]
      rw [h1]
      have h2 : p + 1 - p = 1 := by omega
      rw [h2]
      rfl
    have hdrop : (idx.set p v).drop (p + 1 + rest.length) = idx.drop (p + 1 + rest.length) :=
      List.drop_set_of_lt _ _ (by omega)
    rw [htake, hdrop]
    have harr : p + (v :: rest).length = p + 1 + rest.length := by
      rw [List.length_cons]
      omega
    rw [harr, List.append_assoc, List.append_assoc, List.append_assoc]
    rfl

/-- `getD` on `range`. -/
theorem getD_range (n k : ℕ) (hk : k < n) : (List.range n).getD k 0 = k := by
  rw [List.getD_eq_getElem?_getD, List.getElem?_range hk]
  rfl

/-- On a table of at most 16 rows the quicksort loop runs exactly one
insertion sort over the whole range. -/
theorem aquicksortGo_small (ks : List ℚ) (idx : List ℕ) (pl pr : ℕ) (depth : ℤ)
    (fuel : ℕ) (h : ¬ 15 < pr - pl) :
    aquicksortGo ks idx pl pr [] depth (fuel + 1) = insSortSeg ks idx pl pr := by
  rw [aquicksortGo, if_neg h]

/-- For at most 16 keys, the argsort is the stable insertion sort of
the `(key, index)` pairs. -/
theorem npArgsort_small (ks : List ℚ) (hpos : 1 ≤ ks.length) (hlen : ks.length ≤ 16) :
    npArgsort ks =
      (insRun [] ((List.range ks.length).map (fun i => (ks.getD i 0, i)))).map
        (fun p => p.2) := by
  rw [npArgsort]
  have hfuel : 2 * ks.length + 64 = (2 * ks.length + 63) + 1 := rfl
  rw [hfuel, aquicksortGo_small ks _ 0 (ks.length - 1) _ _ (by omega)]
  rw [insSortSeg]
  have hseg : segExtract (List.range ks.length) 0 (ks.length - 1) = List.range ks.length := by
    rw [segExtract]
    have hn : ks.length - 1 + 1 - 0 = ks.length := by omega
    rw [hn]
    have hcong : ∀ k ∈ List.range ks.length,
        (List.range ks.length).getD (0 + k) 0 = k := by
      intro k hk
      rw [Nat.zero_add]
      exact getD_range _ _ (List.mem_range.mp hk)
    rw [List.map_congr_left hcong]
    exact List.map_id _
  rw [hseg]
  have hlensorted :
      ((insRun [] ((List.range ks.length).map (fun i => (ks.getD i 0, i)))).map
        (fun p => p.2)).length = ks.length := by
    rw [List.length_map,
      (insRun_perm ((List.range ks.length).map (fun i => (ks.getD i 0, i))) []).length_eq]
    rw [List.nil_append, List.length_map, List.length_range]
  rw [writeSeg_eq _ _ 0 (by rw [hlensorted, List.length_range]; omega)]
  rw [hlensorted, List.take_zero, List.nil_append, Nat.zero_add]
  have hdrop : (List.range ks.length).drop ks.length = [] := by
    apply List.drop_eq_nil_of_le
    rw [List.length_range]
  rw [hdrop, List.append_nil]

/-- C2 (amended): the ranked output is ordered by numpy's default
(unstable) quicksort of `distance_km`.  For filtered results of at
most 16 records — below numpy's `SMALL_QUICKSORT` cutoff — the sort is
the stable insertion sort, so the output positions are a permutation of
the source positions ordered non-decreasingly by key with ties in
original source order; for larger results the partition step may
permute tied records (see the counterexample). -/
theorem npArgsort_small_stable (ks : List ℚ) (hlen : ks.length ≤ 16) :
    (npArgsort ks).Perm (List.range ks.length) ∧
    List.Pairwise (fun i j => ks.getD i 0 < ks.getD j 0 ∨
      (ks.getD i 0 = ks.getD j 0 ∧ i < j)) (npArgsort ks) := by
  by_cases hn : ks.length = 0
  · have hks : ks = [] := List.length_eq_zero.mp hn
    subst hks
    constructor
    · rfl
    · show List.Pairwise _ (npArgsort [])
      have : npArgsort [] = [] := by rfl
      rw [this]
      exact List.Pairwise.nil
  · have hpos : 1 ≤ ks.length := by omega
    rw [npArgsort_small ks hpos hlen]
    have hperm0 : (insRun [] ((List.range ks.length).map (fun i => (ks.getD i 0, i)))).Perm
        ((List.range ks.length).map (fun i => (ks.getD i 0, i))) := by
      have h := insRun_perm ((List.range ks.length).map (fun i => (ks.getD i 0, i))) []
      rwa [List.nil_append] at h
    constructor
    · have h1 := hperm0.map (fun p : ℚ × ℕ => p.2)
      have h2 : ((List.range ks.length).map (fun i => (ks.getD i 0, i))).map
          (fun p : ℚ × ℕ => p.2) = List.range ks.length := by
        rw [List.map_map]
        exact List.map_id _
      rwa [h2] at h1
    · have hpl : List.Pairwise (fun a b : ℚ × ℕ => a.2 < b.2)
          ((List.range ks.length).map (fun i => (ks.getD i 0, i))) := by
        rw [List.pairwise_map]
        exact List.pairwise_lt_range ks.length
      have hsorted := insRun_sorted ((List.range ks.length).map (fun i => (ks.getD i 0, i)))
        [] List.Pairwise.nil (by intro y hy; cases hy) hpl
      have hform : ∀ p ∈ insRun [] ((List.range ks.length).map (fun i => (ks.getD i 0, i))),
          p.1 = ks.getD p.2 0 := by
        intro p hp
        rw [hperm0.mem_iff, List.mem_map] at hp
        obtain ⟨i, _, hip⟩ := hp
        rw [← hip]
      rw [List.pairwise_map]
      apply hsorted.imp_of_mem
      intro a b ha hb hab
      rw [pleLex] at hab
      rw [← hform a ha, ← hform b hb]
      exact hab

/-- Witness for C2 (amended) at the three-key table `[2, 1, 1]`: the
argsort is a permutation of `0..2`, non-decreasing by key with the tie
`1, 1` in source order. -/
theorem npArgsort_small_stable_witness :
    (npArgsort [2, 1, 1]).Perm (List.range ([2, 1, 1] : List ℚ).length) ∧
    List.Pairwise (fun i j => ([2, 1, 1] : List ℚ).getD i 0 < ([2, 1, 1] : List ℚ).getD j 0 ∨
      (([2, 1, 1] : List ℚ).getD i 0 = ([2, 1, 1] : List ℚ).getD j 0 ∧ i < j))
      (npArgsort [2, 1, 1]) :=
  npArgsort_small_stable [2, 1, 1] (by decide)
